import Mathlib

/-!
Verification of the ambient-email-agent approval core against its
specification.  The Python sources (`src/app.py`, `src/graph/nodes.py`,
`src/graph/build.py`, `src/services/genai_service.py`,
`src/services/gmail_service.py`) are shallowly embedded below: pure
functions become Lean functions, the in-memory `PENDING` dict becomes an
association list with dict-style insert/lookup/pop, and the external
collaborators (Gemini inference, Gmail send, sqlite store) become explicit
outcome parameters.
-/

namespace AmbientAgent

/-! ## Data model

`Proposal`, `Payload` and `Entry` mirror the dictionaries built in
`node_sensitive` (src/graph/nodes.py) and stored into `PENDING`
(src/app.py).  All five proposal fields are always present in entries the
system registers, so they are plain `String`s here. -/

structure Proposal where
  «to» : String
  subject : String
  body : String
  original_sender : String
  original_subject : String
  deriving Repr, DecidableEq

structure Payload where
  tool : String
  allow_edit : Bool
  allow_accept : Bool
  allow_ignore : Bool
  allow_respond : Bool
  priority : Nat
  is_vip : Bool
  proposal : Proposal
  deriving Repr, DecidableEq

/-- One value of the `PENDING` dict: the interrupt payload plus the
metadata the API attaches for UI filtering. -/

structure Entry where
  value : Payload
  triage : Option String
  priority : Option Nat
  is_vip : Option Bool
  deriving Repr, DecidableEq

/-- The `PENDING` registry: a `Dict[str, Dict]` modelled as an
association list in insertion order with unique keys. -/

def Pending := List (String × Entry)

/-- Dict lookup (`thread_id in PENDING` / `PENDING[thread_id]`). -/

def lookupP (k : String) : List (String × Entry) → Option Entry
  | [] => none
  | (k', v) :: t => if k' = k then some v else lookupP k t

/-- Dict removal (`PENDING.pop(thread_id)` drops the unique entry). -/

def eraseKey (k : String) : List (String × Entry) → List (String × Entry)
  | [] => []
  | (k', v) :: t => if k' = k then t else (k', v) :: eraseKey k t

/-- Dict assignment (`PENDING[thread_id] = intr`): replace an existing
binding in place, otherwise append. -/

def insertP (k : String) (v : Entry) : List (String × Entry) → List (String × Entry)
  | [] => [(k, v)]
  | (k', v') :: t => if k' = k then (k, v) :: t else (k', v') :: insertP k v t

/-- Edits supplied with an approval (`Dict[str, str] | None`); `none`
fields model absent keys. -/

structure Edits where
  «to» : Option String
  subject : Option String
  body : Option String
  deriving Repr, DecidableEq

/-- Body of `POST /approve` (`ApproveRequest` in src/app.py). -/

structure ApproveReq where
  thread_id : String
  approved : Bool
  edits : Option Edits
  deriving Repr, DecidableEq

/-- HTTP-visible outcome of the `approve` endpoint. -/

inductive ApproveRes where
  | forbidden
  | notFound
  | denied
  | sent (message_id : String)
  | sendFailed
  deriving Repr, DecidableEq

/-! ## The approve endpoint (src/app.py, `approve`)

`cfgSecret` is `os.getenv("HITL_SECRET")`, `hdrSecret` the
`x-hitl-secret` header (both optional).  `send` is the external Gmail
collaborator `gm.send_email`, which returns a message id on success and
`None` on failure (it catches all its own exceptions).  The result also
carries the list of messages handed to `send`, to state frame
conditions about the side effect. -/

def approve (cfgSecret hdrSecret : Option String)
    (send : String → String → String → Option String)
    (pending : List (String × Entry)) (body : ApproveReq) :
    ApproveRes × List (String × Entry) × List (String × String × String) :=
  if hdrSecret ≠ cfgSecret then (.forbidden, pending, [])
  else
    match lookupP body.thread_id pending with
    | none => (.notFound, pending, [])
    | some intr =>
      let pending' := eraseKey body.thread_id pending
      let payload := intr.value.proposal
      let edits := body.edits.getD ⟨none, none, none⟩
      if body.approved = false then (.denied, pending', [])
      else
        let toAddr := edits.«to».getD payload.«to»
        let subject := edits.subject.getD payload.subject
        let content := edits.body.getD payload.body
        match send toAddr subject content with
        | some msgId => (.sent msgId, pending', [(toAddr, subject, content)])
        | none => (.sendFailed, pending', [(toAddr, subject, content)])

/-! ## Classification (src/services/genai_service.py, `classify_email`)

The Gemini call is modelled by a `ModelOutcome`: the returned text
(`resp.text or ""`), or an error.  `errCaught` stands for the exception
types the source handles (`ValueError`, `RuntimeError`,
`ConnectionError`, including the missing-API-key `ValueError`);
`errOther` for any other exception, which escapes `classify_email`.
`json.loads` is embedded as a small JSON parser (`json_loads`), adequate
for the JSON values exercised here; `\w` and `lower()` are modelled over
the ASCII alphabet. -/

inductive JVal where
  | jnull
  | jbool (b : Bool)
  | jnum
  | jstr (s : String)
  | jarr (elems : List JVal)
  | jobj (fields : List (String × JVal))
  deriving Repr

/-- JSON whitespace skipping (space, tab, newline, carriage return). -/

def skipWs : List Char → List Char
  | [] => []
  | c :: cs => if c = ' ' ∨ c = '\t' ∨ c = '\n' ∨ c = '\r' then skipWs cs else c :: cs

def hexVal (c : Char) : Option Nat :=
  if '0' ≤ c ∧ c ≤ '9' then some (c.toNat - '0'.toNat)
  else if 'a' ≤ c ∧ c ≤ 'f' then some (c.toNat - 'a'.toNat + 10)
  else if 'A' ≤ c ∧ c ≤ 'F' then some (c.toNat - 'A'.toNat + 10)
  else none

/-- JSON string body parser (after the opening quote), strict about
escapes and control characters, like `json.loads`. -/

def parseStrAux : Nat → List Char → List Char → Option (String × List Char)
  | 0, _, _ => none
  | _ + 1, _, [] => none
  | fuel + 1, acc, c :: cs =>
    if c = '"' then some (String.mk acc.reverse, cs)
    else if c = '\\' then
      match cs with
      | [] => none
      | e :: cs' =>
        if e = '"' then parseStrAux fuel ('"' :: acc) cs'
        else if e = '\\' then parseStrAux fuel ('\\' :: acc) cs'
        else if e = '/' then parseStrAux fuel ('/' :: acc) cs'
        else if e = 'b' then parseStrAux fuel ('\x08' :: acc) cs'
        else if e = 'f' then parseStrAux fuel ('\x0c' :: acc) cs'
        else if e = 'n' then parseStrAux fuel ('\n' :: acc) cs'
        else if e = 'r' then parseStrAux fuel ('\r' :: acc) cs'
        else if e = 't' then parseStrAux fuel ('\t' :: acc) cs'
        else if e = 'u' then
          match cs' with
          | h1 :: h2 :: h3 :: h4 :: rest =>
            match hexVal h1, hexVal h2, hexVal h3, hexVal h4 with
            | some a, some b, some c', some d =>
              parseStrAux fuel (Char.ofNat (((a * 16 + b) * 16 + c') * 16 + d) :: acc) rest
            | _, _, _, _ => none
          | _ => none
        else none
    else if c.toNat < 32 then none
    else parseStrAux fuel (c :: acc) cs

/-- JSON number parser: `-? (0 | [1-9][0-9]*) (. [0-9]+)? ([eE][+-]?[0-9]+)?`. -/

def parseNum (cs0 : List Char) : Option (JVal × List Char) :=
  let cs1 := if cs0.head? = some '-' then cs0.tail else cs0
  match cs1 with
  | [] => none
  | d :: rest =>
    if d.isDigit = false then none
    else if d = '0' ∧ (rest.head?.map Char.isDigit).getD false = true then none
    else
      let afterInt := (rest.span Char.isDigit).2
      let frac :=
        match afterInt with
        | '.' :: f :: fr => if f.isDigit then some ((List.span Char.isDigit (f :: fr)).2) else none
        | '.' :: [] => none
        | _ => some afterInt
      match frac with
      | none => none
      | some cs2 =>
        match cs2 with
        | e :: er =>
          if e = 'e' ∨ e = 'E' then
            let er1 := match er with | s :: t => if s = '+' ∨ s = '-' then t else er | [] => er
            match er1 with
            | g :: gr =>
              if g.isDigit then some (JVal.jnum, (List.span Char.isDigit (g :: gr)).2)
              else none
            | [] => none
          else some (JVal.jnum, cs2)
        | [] => some (JVal.jnum, [])

mutual

def parseVal : Nat → List Char → Option (JVal × List Char)
  | 0, _ => none
  | fuel + 1, cs0 =>
    match skipWs cs0 with
    | [] => none
    | c :: cs =>
      if c = '{' then
        match skipWs cs with
        | '}' :: rest => some (.jobj [], rest)
        | _ => parseMembers fuel cs []
      else if c = '[' then
        match skipWs cs with
        | ']' :: rest => some (.jarr [], rest)
        | _ => parseElems fuel cs []
      else if c = '"' then
        match parseStrAux (cs.length + 1) [] cs with
        | some (s, rest) => some (.jstr s, rest)
        | none => none
      else if c = 't' then
        match cs with
        | 'r' :: 'u' :: 'e' :: rest => some (.jbool true, rest)
        | _ => none
      else if c = 'f' then
        match cs with
        | 'a' :: 'l' :: 's' :: 'e' :: rest => some (.jbool false, rest)
        | _ => none
      else if c = 'n' then
        match cs with
        | 'u' :: 'l' :: 'l' :: rest => some (.jnull, rest)
        | _ => none
      else parseNum (c :: cs)

def parseMembers : Nat → List Char → List (String × JVal) → Option (JVal × List Char)
  | 0, _, _ => none
  | fuel + 1, cs, acc =>
    match skipWs cs with
    | '"' :: cs1 =>
      match parseStrAux (cs1.length + 1) [] cs1 with
      | some (key, cs2) =>
        match skipWs cs2 with
        | ':' :: cs3 =>
          match parseVal fuel cs3 with
          | some (v, cs4) =>
            match skipWs cs4 with
            | ',' :: cs5 => parseMembers fuel cs5 ((key, v) :: acc)
            | '}' :: cs5 => some (.jobj ((key, v) :: acc).reverse, cs5)
            | _ => none
          | none => none
        | _ => none
      | none => none
    | _ => none

def parseElems : Nat → List Char → List JVal → Option (JVal × List Char)
  | 0, _, _ => none
  | fuel + 1, cs, acc =>
    match parseVal fuel cs with
    | some (v, cs1) =>
      match skipWs cs1 with
      | ',' :: cs2 => parseElems fuel cs2 (v :: acc)
      | ']' :: cs2 => some (.jarr (v :: acc).reverse, cs2)
      | _ => none
    | none => none

end

/-- Model of `json.loads`: parse one JSON value, demanding the whole input be
consumed up to trailing whitespace. -/

def json_loads (s : String) : Option JVal :=
  match parseVal (s.toList.length + 1) s.toList with
  | some (v, rest) => if skipWs rest = [] then some v else none
  | none => none

/-- Python-dict field access: on duplicate keys the last occurrence wins. -/

def lookupJ (k : String) : List (String × JVal) → Option JVal
  | [] => none
  | (k', v) :: t =>
    match lookupJ k t with
    | some r => some r
    | none => if k' = k then some v else none

/-- Python `str.lower()` restricted to the ASCII alphabet. -/

def strToLower (s : String) : String := String.mk (s.toList.map Char.toLower)

/-- Whitespace stripped by Python `str.strip()` (ASCII subset). -/

def isPyWs (c : Char) : Bool :=
  c = ' ' || c = '\t' || c = '\n' || c = '\r' || c = '\x0b' || c = '\x0c'

/-- Python `str.strip()`: drop whitespace from both ends. -/

def strTrim (s : String) : String :=
  String.mk (((s.toList.dropWhile isPyWs).reverse.dropWhile isPyWs).reverse)

/-- Python `str.startswith`. -/

def strStartsWith (s p : String) : Bool := p.toList.isPrefixOf s.toList

/-- Python `str.endswith`. -/

def strEndsWith (s p : String) : Bool := p.toList.isSuffixOf s.toList

/-- Python's `needle in haystack` substring test. -/

def substrOfL (n h : List Char) : Bool := h.tails.any (fun t => n.isPrefixOf t)

def substrB (n h : String) : Bool := substrOfL n.toList h.toList

/-- The `needs_reply_keywords` list of the heuristic fallback. -/

def needs_reply_keywords : List String :=
  ["please reply", "vui lòng", "trả lời", "confirm", "xác nhận",
   "yes/no", "phản hồi", "deadline", "by eod", "can you", "could you",
   "có thể", "được không", "feedback", "ý kiến", "review", "kiểm tra",
   "?"]

/-- The `schedule_keywords` list of the heuristic fallback. -/

def schedule_keywords : List String :=
  ["meet", "meeting", "schedule", "hẹn", "calendar", "call",
   "họp", "gặp", "lịch", "cuộc họp", "hẹn gặp", "lịch trình"]

/-- The `spam_keywords` list of the heuristic fallback. -/

def spam_keywords : List String :=
  ["unsubscribe", "viagra", "crypto", "lottery", "win money", "win $",
   "congratulations", "prize", "claim", "click here", "free money",
   "urgent", "act now", "limited time", "guaranteed", "no risk",
   "chúc mừng", "trúng thưởng", "nhận thưởng", "khuyến mãi", "giảm giá",
   "đầu tư", "kiếm tiền", "không rủi ro", "cơ hội duy nhất"]

/-- The keyword heuristic run when the model call raised a handled
exception type: spam markers first, then scheduling, then needs-reply,
else `fyi`. -/

def heuristic_classify (subject body : String) : String :=
  let text := strToLower (subject ++ "\n" ++ body)
  if spam_keywords.any (fun k => substrB k text) then "spam"
  else if schedule_keywords.any (fun k => substrB k text) then "schedule"
  else if needs_reply_keywords.any (fun k => substrB k text) then "needs_reply"
  else "fyi"

/-- Markdown-fence stripping applied before `json.loads`. -/

def cleanedResponse (response_text : String) : String :=
  let c1 := strTrim response_text
  let c2 := if strStartsWith c1 "```json" then c1.drop 7 else c1
  let c3 := if strEndsWith c2 "```" then c2.dropRight 3 else c2
  strTrim c3

def classify_parse (response_text : String) : Except Unit String :=
  match json_loads (cleanedResponse response_text) with
  | some (JVal.jobj fields) =>
    match lookupJ "email_type" fields with
    | some (JVal.jstr s) =>
      let label := strToLower s
      if label = "needs_reply" ∨ label = "schedule" ∨ label = "fyi" ∨ label = "spam"
      then Except.ok label
      else Except.ok "fyi"
    | some _ => Except.error ()
    | none => Except.ok "fyi"
  | some _ => Except.error ()
  | none =>
    let rl := strToLower response_text
    if substrB "needs_reply" rl then Except.ok "needs_reply"
    else if substrB "schedule" rl then Except.ok "schedule"
    else if substrB "spam" rl then Except.ok "spam"
    else Except.ok "fyi"

/-- Outcome of the `generate_content` call: the model's text, a handled
exception type, or any other exception. -/

inductive ModelOutcome where
  | ok (text : String)
  | errCaught
  | errOther
  deriving Repr, DecidableEq

/-- Model of `classify_email(subject, body, sender)`: parse the model output, or
fall back to the keyword heuristic when the model call raised a handled
exception type; other exceptions escape (`Except.error`).  The `sender`
argument only feeds the prompt and is omitted. -/

def classify_email (m : ModelOutcome) (subject body : String) : Except Unit String :=
  match m with
  | .ok t => classify_parse (strTrim t)
  | .errCaught => Except.ok (heuristic_classify subject body)
  | .errOther => Except.error ()

/-! ## extract_sender_email (src/services/gmail_service.py)

`re.search(r"[\w\.-]+@[\w\.-]+\.[A-Za-z]{2,}", sender or "")` is embedded
as a leftmost backtracking matcher for exactly this pattern.  `\w` is
modelled over the ASCII alphabet (alphanumerics plus underscore). -/

/-- Characters of the class `[\w\.-]`. -/

def classAB (c : Char) : Bool := c.isAlphanum || c = '_' || c = '.' || c = '-'

/-- Length of the maximal prefix satisfying `p`, i.e. how far a greedy
`+`/`{2,}` run over a character class extends. -/

def countWhile (p : Char → Bool) : List Char → Nat
  | [] => 0
  | c :: cs => if p c then countWhile p cs + 1 else 0

/-- Backtracking for `[\w\.-]+\.[A-Za-z]{2,}`: the position of the `.`
is tried from `j` downwards (the greedy `+` gives characters back one at
a time); `[A-Za-z]{2,}` then takes the maximal letter run.  Returns the
total matched length. -/

def tryDot (cs : List Char) : Nat → Option Nat
  | 0 => none
  | j + 1 =>
    if cs.get? (j + 1) = some '.' ∧ 2 ≤ countWhile Char.isAlpha (cs.drop (j + 2))
    then some (j + 2 + countWhile Char.isAlpha (cs.drop (j + 2)))
    else tryDot cs j

/-- Match the whole pattern at the head of `cs`; `[\w\.-]+@` needs no
backtracking because `@` is not in the class, so the first run must be
maximal.  Returns the matched length. -/

def matchAt (cs : List Char) : Option Nat :=
  let r := countWhile classAB cs
  if 1 ≤ r ∧ cs.get? r = some '@' then
    match tryDot (cs.drop (r + 1)) (countWhile classAB (cs.drop (r + 1))) with
    | some d => some (r + 1 + d)
    | none => none
  else none

/-- The `re.search` position scan: leftmost start position wins. -/

def searchFrom : List Char → Nat → Option (Nat × Nat)
  | [], _ => none
  | c :: cs, i =>
    match matchAt (c :: cs) with
    | some n => some (i, n)
    | none => searchFrom cs (i + 1)

/-- The match found by `re.search`, as start index and matched text. -/

def emailSearch (s : String) : Option (Nat × String) :=
  match searchFrom s.toList 0 with
  | some (i, n) => some (i, String.mk ((s.toList.drop i).take n))
  | none => none

/-- Model of `extract_sender_email(sender)`: the first pattern match, else the
input itself; `sender or ""` maps an absent (`None`) input to `""`. -/

def extract_sender_email (sender : Option String) : String :=
  let s := sender.getD ""
  match emailSearch s with
  | some (_, m) => m
  | none => s

/-! ## Pipeline state and nodes (src/graph/state.py, src/graph/nodes.py)

`EmailState` is the LangGraph state dict; optional fields are `Option`.
The sqlite store and the drafter are explicit outcome parameters:
`Except.error` models the call raising. -/

structure EmailState where
  user_id : String
  email_id : String
  email_subject : String
  email_body : String
  email_sender : String
  email_recipient : Option String
  triage : Option String
  draft : Option String
  proposed_action : Option String
  is_vip : Option Bool
  priority : Option Nat
  hitl_payload : Option Payload
  hitl_thread_id : Option String
  deriving Repr, DecidableEq

/-- The `except` branch of `node_triage`: fallback values written over
the in-place-mutated state. -/

def triageFallback (st : EmailState) : EmailState :=
  { st with triage := some "fyi", proposed_action := some "none",
            is_vip := some false, priority := some 1 }

/-- Model of `node_triage`: VIP lookup, classification, action mapping, audit
log.  `vipRes` is the `is_vip_contact` call, `classifyRes` the
`classify_email` adapter result (`Except.error` = the adapter raised),
`logRes` the `log_email_action` call; any raise lands in the `except`
branch, which overwrites with the fallback values. -/

def node_triage (vipRes : Except Unit Bool) (classifyRes : Except Unit String)
    (logRes : Except Unit Unit) (st : EmailState) : EmailState :=
  match vipRes with
  | .error _ => triageFallback st
  | .ok v =>
    let st1 := { st with is_vip := some v, priority := some (if v then 2 else 1) }
    match classifyRes with
    | .error _ => triageFallback st1
    | .ok label =>
      let st2 := { st1 with
        triage := some label,
        proposed_action := some (if label = "needs_reply" then "send_email"
          else if label = "schedule" then "create_event" else "none") }
      match logRes with
      | .error _ => triageFallback st2
      | .ok _ => st2

/-- Model of `node_agent`: when `triage == "needs_reply"`, `agentRes` is the
composite outcome of profile fetch + VIP fetch + `draft_reply` + audit
log (`Except.ok` carries the draft text; `Except.error` = any of them
raised, landing in the `except` branch); otherwise the fixed placeholder
is stored.  `draft_reply` returns a fixed fallback string on its own
handled errors, which is part of `Except.ok` here. -/

def node_agent (agentRes : Except Unit String) (st : EmailState) : EmailState :=
  if st.triage = some "needs_reply" then
    match agentRes with
    | .ok d => { st with draft := some d }
    | .error _ => { st with draft := some "Error generating reply. Please review manually." }
  else { st with draft := some "No action needed." }

/-- Python truthiness of `state.get("draft")`: absent and `""` are falsy. -/

def truthy : Option String → Bool
  | none => false
  | some s => !s.isEmpty

/-- The HITL payload built by `node_sensitive`. -/

def mkPayload (st : EmailState) : Payload :=
  { tool := "send_email", allow_edit := true, allow_accept := true,
    allow_ignore := true, allow_respond := false,
    priority := st.priority.getD 1, is_vip := st.is_vip.getD false,
    proposal :=
      { «to» := extract_sender_email (some st.email_sender),
        subject := "Re: " ++ st.email_subject,
        body := st.draft.getD "",
        original_sender := st.email_sender,
        original_subject := st.email_subject } }

/-- Model of `node_sensitive`: when the gate condition holds, build the payload,
stash it with a fresh thread id (`email_id` + "-" + uuid suffix, the
random suffix passed in as `nonce`), and interrupt; otherwise pass
through.  The audit append has no effect on state or result and is
elided; the interrupt is surfaced as the second component. -/

def node_sensitive (nonce : String) (st : EmailState) :
    EmailState × Option (String × Payload) :=
  if st.proposed_action = some "send_email" ∧ truthy st.draft = true then
    let payload := mkPayload st
    let tid := st.email_id ++ "-" ++ nonce
    ({ st with hitl_payload := some payload, hitl_thread_id := some tid },
     some (tid, payload))
  else (st, none)

/-- Outcome of `POST /run-email`. -/

inductive RunRes where
  | interrupted (thread_id : String) (payload : Payload)
  | done (state : EmailState)
  deriving Repr, DecidableEq

/-- The Gate step as the API sees it (src/app.py, `run_email`): if
`node_sensitive` interrupts, the interrupt entry is stored into
`PENDING` with the UI metadata and INTERRUPTED is returned with the
token and payload; otherwise DONE with the final state. -/

def gate_submit (nonce : String) (pending : List (String × Entry))
    (st : EmailState) : RunRes × List (String × Entry) :=
  match node_sensitive nonce st with
  | (_, some (tid, payload)) =>
    (RunRes.interrupted tid payload,
     insertP tid { value := payload, triage := st.triage,
                   priority := st.priority, is_vip := st.is_vip } pending)
  | (st', none) => (RunRes.done st', pending)

/-- Body of `POST /run-email`. -/

structure RunEmailReq where
  user_id : String
  email_id : String
  email_subject : String
  email_body : String
  email_sender : String
  email_recipient : Option String
  deriving Repr, DecidableEq

/-- Initial LangGraph state built from the request. -/

def initState (req : RunEmailReq) : EmailState :=
  { user_id := req.user_id, email_id := req.email_id,
    email_subject := req.email_subject, email_body := req.email_body,
    email_sender := req.email_sender, email_recipient := req.email_recipient,
    triage := none, draft := none, proposed_action := none,
    is_vip := none, priority := none, hitl_payload := none, hitl_thread_id := none }

/-- The message context as it reaches the Gate stage: triage then agent
over the initial state. -/

def preGate (vipRes : Except Unit Bool) (m : ModelOutcome)
    (logRes : Except Unit Unit) (agentRes : Except Unit String)
    (req : RunEmailReq) : EmailState :=
  node_agent agentRes
    (node_triage vipRes (classify_email m req.email_subject req.email_body)
      logRes (initState req))

/-- The full `POST /run-email` pipeline: triage → agent → sensitive,
with the API-side interrupt capture. -/

def run_email (vipRes : Except Unit Bool) (m : ModelOutcome)
    (logRes : Except Unit Unit) (agentRes : Except Unit String)
    (nonce : String) (pending : List (String × Entry)) (req : RunEmailReq) :
    RunRes × List (String × Entry) :=
  gate_submit nonce pending (preGate vipRes m logRes agentRes req)

/-- Some keyword of `keys` occurs in `text`. -/

def hasMarker (keys : List String) (text : String) : Prop :=
  ∃ k ∈ keys, substrB k text = true

/-- Holds (as `true`) iff none of the three category names occurs in the lowercased
model output. -/

def noCategoryMarker (response_text : String) : Bool :=
  !(substrB "needs_reply" (strToLower response_text)) &&
  !(substrB "schedule" (strToLower response_text)) &&
  !(substrB "spam" (strToLower response_text))

/-- Declarative reading of the pattern `[\w\.-]+@[\w\.-]+\.[A-Za-z]{2,}`:
a nonempty class run, `@`, a nonempty class run, `.`, and at least two
letters. -/

def patExpL (m : List Char) : Prop :=
  ∃ a b l : List Char, m = a ++ '@' :: (b ++ '.' :: l)
    ∧ 1 ≤ a.length ∧ a.all classAB = true
    ∧ 1 ≤ b.length ∧ b.all classAB = true
    ∧ 2 ≤ l.length ∧ l.all Char.isAlpha = true

/-- The pattern matches somewhere starting at position `i` of `cs`. -/

def matchesAt (cs : List Char) (i : Nat) : Prop :=
  ∃ m, patExpL m ∧ m <+: cs.drop i

/-- A concrete registered entry used by the endpoint witnesses. -/

def sampleEntry : Entry :=
  { value :=
      { tool := "send_email", allow_edit := true, allow_accept := true,
        allow_ignore := true, allow_respond := false, priority := 2, is_vip := true,
        proposal :=
          { «to» := "alice@example.com", subject := "Re: hello",
            body := "original draft", original_sender := "Alice <alice@example.com>",
            original_subject := "hello" } },
    triage := some "needs_reply", priority := some 2, is_vip := some true }

/-- A one-entry registry holding `sampleEntry` under token `"m1-abc"`. -/

def samplePending : List (String × Entry) := [("m1-abc", sampleEntry)]

/-- A concrete submission used by several concrete runs below. -/

def sampleReq : RunEmailReq :=
  { user_id := "u_local", email_id := "m1", email_subject := "",
    email_body := "can we meet tomorrow",
    email_sender := "Alice <alice@example.com>", email_recipient := none }

/-- A concrete context that satisfies the gate condition. -/

def sampleGateState : EmailState :=
  { user_id := "u_local", email_id := "m1", email_subject := "hello",
    email_body := "ping", email_sender := "Alice <alice@example.com>",
    email_recipient := none, triage := some "needs_reply",
    draft := some "original draft", proposed_action := some "send_email",
    is_vip := some true, priority := some 2,
    hitl_payload := none, hitl_thread_id := none }

/-! ### Registry lemmas -/

theorem lookupP_eq_none_of_not_mem {k : String} :
    ∀ {l : List (String × Entry)}, k ∉ l.map Prod.fst → lookupP k l = none := by
  intro l
  induction l with
  | nil => intro _; rfl
  | cons hd tl ih =>
    intro h
    simp only [List.map_cons, List.mem_cons] at h
    push_neg at h
    simp only [lookupP]
    rw [if_neg (by exact fun he => h.1 he.symm)]
    exact ih h.2

theorem lookupP_eraseKey_self {k : String} :
    ∀ {l : List (String × Entry)}, (l.map Prod.fst).Nodup →
      lookupP k (eraseKey k l) = none := by
  intro l
  induction l with
  | nil => intro _; rfl
  | cons hd tl ih =>
    intro h
    simp only [List.map_cons, List.nodup_cons] at h
    simp only [eraseKey]
    by_cases he : hd.1 = k
    · rw [if_pos he]
      exact lookupP_eq_none_of_not_mem (he ▸ h.1)
    · rw [if_neg he]
      simp only [lookupP]
      rw [if_neg he]
      exact ih h.2

theorem lookupP_insertP_self {k : String} {v : Entry} :
    ∀ {l : List (String × Entry)}, lookupP k (insertP k v l) = some v := by
  intro l
  induction l with
  | nil => simp [insertP, lookupP]
  | cons hd tl ih =>
    simp only [insertP]
    by_cases he : hd.1 = k
    · rw [if_pos he]; simp [lookupP]
    · rw [if_neg he]
      simp only [lookupP]
      rw [if_neg he]
      exact ih

/-- Under a matching secret and a live token, `approve` always pops the
entry: the new registry is `eraseKey`, and the outcome is one of the
terminal results (never 403/404). -/

theorem approve_live_token_cases (cfg hdr : Option String)
    (send : String → String → String → Option String)
    (pending : List (String × Entry)) (tid : String) (appr : Bool)
    (edits : Option Edits) (e : Entry)
    (hauth : hdr = cfg) (hlook : lookupP tid pending = some e) :
    (approve cfg hdr send pending ⟨tid, appr, edits⟩).2.1 = eraseKey tid pending
    ∧ (approve cfg hdr send pending ⟨tid, appr, edits⟩).1 ≠ ApproveRes.forbidden
    ∧ (approve cfg hdr send pending ⟨tid, appr, edits⟩).1 ≠ ApproveRes.notFound := by
  subst hauth
  simp only [approve, ne_eq, not_true_eq_false, if_false, reduceIte, hlook]
  cases appr with
  | false => simp
  | true =>
    simp only [Bool.true_eq_false, reduceIte]
    cases h : send ((Option.getD edits ⟨none, none, none⟩).«to».getD e.value.proposal.«to»)
        ((Option.getD edits ⟨none, none, none⟩).subject.getD e.value.proposal.subject)
        ((Option.getD edits ⟨none, none, none⟩).body.getD e.value.proposal.body) <;> simp

/-- C1: once an authorized resolve call on a live token has succeeded
(the entry is removed and the outcome is terminal, never 403/404), the
token is no longer in the registry, and any later authorized resolve call
with the same token returns 404 and changes nothing. -/

theorem approve_at_most_once (cfg hdr : Option String)
    (send : String → String → String → Option String)
    (pending : List (String × Entry)) (tid : String) (appr : Bool)
    (edits : Option Edits) (e : Entry)
    (hauth : hdr = cfg) (hkeys : (pending.map Prod.fst).Nodup)
    (hlook : lookupP tid pending = some e) :
    ((approve cfg hdr send pending ⟨tid, appr, edits⟩).1 ≠ ApproveRes.forbidden
      ∧ (approve cfg hdr send pending ⟨tid, appr, edits⟩).1 ≠ ApproveRes.notFound)
    ∧ lookupP tid (approve cfg hdr send pending ⟨tid, appr, edits⟩).2.1 = none
    ∧ ∀ (hdr₂ : Option String) (send₂ : String → String → String → Option String)
        (appr₂ : Bool) (edits₂ : Option Edits), hdr₂ = cfg →
        approve cfg hdr₂ send₂ (approve cfg hdr send pending ⟨tid, appr, edits⟩).2.1
            ⟨tid, appr₂, edits₂⟩ =
          (ApproveRes.notFound, (approve cfg hdr send pending ⟨tid, appr, edits⟩).2.1, []) := by
  obtain ⟨hrem, hf, hn⟩ := approve_live_token_cases cfg hdr send pending tid appr edits e hauth hlook
  have hgone : lookupP tid (approve cfg hdr send pending ⟨tid, appr, edits⟩).2.1 = none := by
    rw [hrem]; exact lookupP_eraseKey_self hkeys
  refine ⟨⟨hf, hn⟩, hgone, ?_⟩
  intro hdr₂ send₂ appr₂ edits₂ hauth₂
  rw [hauth₂]
  generalize hp : (approve cfg hdr send pending ⟨tid, appr, edits⟩).2.1 = p₁ at hgone ⊢
  simp [approve, hgone]

/-- C2: on an authorized approval of a live token, exactly one message is
handed to the send collaborator, and each of its `to`/`subject`/`body`
fields equals the corresponding `edits` field when that field is present,
and the stored proposal's field otherwise. -/

theorem approve_merge_fields (cfg hdr : Option String)
    (send : String → String → String → Option String)
    (pending : List (String × Entry)) (tid : String)
    (edits : Option Edits) (e : Entry)
    (hauth : hdr = cfg) (hlook : lookupP tid pending = some e) :
    (approve cfg hdr send pending ⟨tid, true, edits⟩).2.2 =
      [ ((edits.getD ⟨none, none, none⟩).«to».getD e.value.proposal.«to»,
         (edits.getD ⟨none, none, none⟩).subject.getD e.value.proposal.subject,
         (edits.getD ⟨none, none, none⟩).body.getD e.value.proposal.body) ] := by
  subst hauth
  simp only [approve, ne_eq, not_true_eq_false, if_false, reduceIte, hlook,
    Bool.true_eq_false]
  cases h : send ((Option.getD edits ⟨none, none, none⟩).«to».getD e.value.proposal.«to»)
      ((Option.getD edits ⟨none, none, none⟩).subject.getD e.value.proposal.subject)
      ((Option.getD edits ⟨none, none, none⟩).body.getD e.value.proposal.body) <;>
    simp only [h]

/-- C7: an authorized denial of a live token reports DENIED, hands
nothing to the send collaborator, and removes the proposal from the
registry. -/

theorem approve_denied_spec (cfg hdr : Option String)
    (send : String → String → String → Option String)
    (pending : List (String × Entry)) (tid : String)
    (edits : Option Edits) (e : Entry)
    (hauth : hdr = cfg) (hkeys : (pending.map Prod.fst).Nodup)
    (hlook : lookupP tid pending = some e) :
    approve cfg hdr send pending ⟨tid, false, edits⟩ =
      (ApproveRes.denied, eraseKey tid pending, [])
    ∧ lookupP tid (eraseKey tid pending) = none := by
  subst hauth
  refine ⟨?_, lookupP_eraseKey_self hkeys⟩
  simp [approve, hlook]

/-- C8: a resolve request whose shared-secret header does not match the
configured secret yields 403, leaves the registry completely unchanged,
and performs no send, regardless of whether the token is live. -/

theorem approve_forbidden_frame (cfg hdr : Option String)
    (send : String → String → String → Option String)
    (pending : List (String × Entry)) (body : ApproveReq)
    (h : hdr ≠ cfg) :
    approve cfg hdr send pending body = (ApproveRes.forbidden, pending, []) := by
  simp [approve, h]

/-- Witness for C1 at a concrete registry, token and send collaborator. -/

theorem approve_at_most_once_witness :
    (some "s" : Option String) = some "s"
    ∧ (samplePending.map Prod.fst).Nodup
    ∧ lookupP "m1-abc" samplePending = some sampleEntry
    ∧ (((approve (some "s") (some "s") (fun _ _ _ => some "id9") samplePending
          ⟨"m1-abc", true, none⟩).1 ≠ ApproveRes.forbidden
        ∧ (approve (some "s") (some "s") (fun _ _ _ => some "id9") samplePending
          ⟨"m1-abc", true, none⟩).1 ≠ ApproveRes.notFound)
      ∧ lookupP "m1-abc" (approve (some "s") (some "s") (fun _ _ _ => some "id9")
          samplePending ⟨"m1-abc", true, none⟩).2.1 = none
      ∧ ∀ (hdr₂ : Option String) (send₂ : String → String → String → Option String)
          (appr₂ : Bool) (edits₂ : Option Edits), hdr₂ = some "s" →
          approve (some "s") hdr₂ send₂ (approve (some "s") (some "s")
              (fun _ _ _ => some "id9") samplePending ⟨"m1-abc", true, none⟩).2.1
              ⟨"m1-abc", appr₂, edits₂⟩ =
            (ApproveRes.notFound, (approve (some "s") (some "s")
              (fun _ _ _ => some "id9") samplePending ⟨"m1-abc", true, none⟩).2.1, [])) := by
  refine ⟨rfl, by decide, by decide, ?_⟩
  exact approve_at_most_once (some "s") (some "s") (fun _ _ _ => some "id9")
    samplePending "m1-abc" true none sampleEntry rfl (by decide) (by decide)

/-- Witness for C2: an edit overriding only the body; `to` and `subject`
fall back to the stored proposal. -/

theorem approve_merge_fields_witness :
    lookupP "m1-abc" samplePending = some sampleEntry
    ∧ (approve (some "s") (some "s") (fun _ _ _ => some "id9") samplePending
        ⟨"m1-abc", true, some ⟨none, none, some "edited body"⟩⟩).2.2 =
      [("alice@example.com", "Re: hello", "edited body")] := by
  refine ⟨by decide, ?_⟩
  have h := approve_merge_fields (some "s") (some "s") (fun _ _ _ => some "id9")
    samplePending "m1-abc" (some ⟨none, none, some "edited body"⟩) sampleEntry rfl (by decide)
  simpa [sampleEntry] using h

/-- Witness for C7 at a concrete registry and token. -/

theorem approve_denied_spec_witness :
    lookupP "m1-abc" samplePending = some sampleEntry
    ∧ approve (some "s") (some "s") (fun _ _ _ => some "id9") samplePending
        ⟨"m1-abc", false, none⟩ = (ApproveRes.denied, eraseKey "m1-abc" samplePending, [])
    ∧ lookupP "m1-abc" (eraseKey "m1-abc" samplePending) = none := by
  have h := approve_denied_spec (some "s") (some "s") (fun _ _ _ => some "id9")
    samplePending "m1-abc" none sampleEntry rfl (by decide) (by decide)
  exact ⟨by decide, h.1, h.2⟩

/-- Witness for C8: wrong secret against a registry holding a live token. -/

theorem approve_forbidden_frame_witness :
    (some "wrong" : Option String) ≠ some "s"
    ∧ approve (some "s") (some "wrong") (fun _ _ _ => some "id9") samplePending
        ⟨"m1-abc", true, none⟩ = (ApproveRes.forbidden, samplePending, []) := by
  exact ⟨by decide, approve_forbidden_frame (some "s") (some "wrong")
    (fun _ _ _ => some "id9") samplePending ⟨"m1-abc", true, none⟩ (by decide)⟩

/-! ## Claims about classification and triage -/

theorem hasMarker_iff_any (keys : List String) (text : String) :
    (keys.any (fun k => substrB k text) = true) ↔ hasMarker keys text := by
  simp [hasMarker, List.any_eq_true]

/-- C9: when the model call errors with a handled exception type, the
heuristic checks spam markers first, then scheduling markers, then
needs-reply markers, in that order, over the lowercased
subject-plus-body text, and yields `fyi` when none occurs. -/

theorem heuristic_priority_order (subject body : String) :
    (hasMarker spam_keywords (strToLower (subject ++ "\n" ++ body)) →
       classify_email ModelOutcome.errCaught subject body = Except.ok "spam")
    ∧ (¬ hasMarker spam_keywords (strToLower (subject ++ "\n" ++ body)) →
        hasMarker schedule_keywords (strToLower (subject ++ "\n" ++ body)) →
        classify_email ModelOutcome.errCaught subject body = Except.ok "schedule")
    ∧ (¬ hasMarker spam_keywords (strToLower (subject ++ "\n" ++ body)) →
        ¬ hasMarker schedule_keywords (strToLower (subject ++ "\n" ++ body)) →
        hasMarker needs_reply_keywords (strToLower (subject ++ "\n" ++ body)) →
        classify_email ModelOutcome.errCaught subject body = Except.ok "needs_reply")
    ∧ (¬ hasMarker spam_keywords (strToLower (subject ++ "\n" ++ body)) →
        ¬ hasMarker schedule_keywords (strToLower (subject ++ "\n" ++ body)) →
        ¬ hasMarker needs_reply_keywords (strToLower (subject ++ "\n" ++ body)) →
        classify_email ModelOutcome.errCaught subject body = Except.ok "fyi") := by
  refine ⟨fun h1 => ?_, fun h1 h2 => ?_, fun h1 h2 h3 => ?_, fun h1 h2 h3 => ?_⟩
  · have b1 := (hasMarker_iff_any _ _).mpr h1
    simp [classify_email, heuristic_classify, b1]
  · have b1 := Bool.eq_false_iff.mpr (fun hc => h1 ((hasMarker_iff_any _ _).mp hc))
    have b2 := (hasMarker_iff_any _ _).mpr h2
    simp [classify_email, heuristic_classify, b1, b2]
  · have b1 := Bool.eq_false_iff.mpr (fun hc => h1 ((hasMarker_iff_any _ _).mp hc))
    have b2 := Bool.eq_false_iff.mpr (fun hc => h2 ((hasMarker_iff_any _ _).mp hc))
    have b3 := (hasMarker_iff_any _ _).mpr h3
    simp [classify_email, heuristic_classify, b1, b2, b3]
  · have b1 := Bool.eq_false_iff.mpr (fun hc => h1 ((hasMarker_iff_any _ _).mp hc))
    have b2 := Bool.eq_false_iff.mpr (fun hc => h2 ((hasMarker_iff_any _ _).mp hc))
    have b3 := Bool.eq_false_iff.mpr (fun hc => h3 ((hasMarker_iff_any _ _).mp hc))
    simp [classify_email, heuristic_classify, b1, b2, b3]

/-- Witness for C9: a text containing both a spam marker and a
scheduling marker classifies as spam (spam checked first). -/

theorem heuristic_priority_order_witness :
    hasMarker spam_keywords (strToLower ("" ++ "\n" ++ "unsubscribe meeting"))
    ∧ hasMarker schedule_keywords (strToLower ("" ++ "\n" ++ "unsubscribe meeting"))
    ∧ classify_email ModelOutcome.errCaught "" "unsubscribe meeting" = Except.ok "spam" := by
  have h1 : hasMarker spam_keywords (strToLower ("" ++ "\n" ++ "unsubscribe meeting")) :=
    ⟨"unsubscribe", by decide, by decide⟩
  have h2 : hasMarker schedule_keywords (strToLower ("" ++ "\n" ++ "unsubscribe meeting")) :=
    ⟨"meet", by decide, by decide⟩
  exact ⟨h1, h2, (heuristic_priority_order "" "unsubscribe meeting").1 h1⟩

/-- C5 counterexample: the model output `"spam"` is not parseable as
JSON, yet classification returns `spam`, not `fyi` — the substring
fallback extracts a category name from unparseable output. -/

theorem classify_unparseable_spam_cex :
    json_loads (cleanedResponse "spam") = none
    ∧ classify_email (ModelOutcome.ok "spam") "a" "b" = Except.ok "spam"
    ∧ "spam" ≠ "fyi" := by
  refine ⟨rfl, rfl, by decide⟩

/-- Reduction of `classify_parse` when the cleaned output parses as a
JSON object. -/

theorem classify_parse_obj (rt : String) (fields : List (String × JVal))
    (hobj : json_loads (cleanedResponse rt) = some (JVal.jobj fields)) :
    classify_parse rt =
      (match lookupJ "email_type" fields with
       | some (JVal.jstr s) =>
         if strToLower s = "needs_reply" ∨ strToLower s = "schedule"
            ∨ strToLower s = "fyi" ∨ strToLower s = "spam"
         then Except.ok (strToLower s)
         else Except.ok "fyi"
       | some _ => Except.error ()
       | none => Except.ok "fyi") := by
  unfold classify_parse
  rw [hobj]

/-- Reduction of `classify_parse` when the cleaned output is not valid
JSON: the substring fallback over the lowercased output. -/

theorem classify_parse_noJson (rt : String)
    (hnone : json_loads (cleanedResponse rt) = none) :
    classify_parse rt =
      (if substrB "needs_reply" (strToLower rt) then Except.ok "needs_reply"
       else if substrB "schedule" (strToLower rt) then Except.ok "schedule"
       else if substrB "spam" (strToLower rt) then Except.ok "spam"
       else Except.ok "fyi") := by
  unfold classify_parse
  rw [hnone]

/-- C5 as amended: classification returns `fyi` on a model output that
is unparseable and mentions no category name, and on a parsed JSON
object whose `email_type` is absent or is a string other than
`needs_reply`/`schedule`/`spam`.  (Unparseable output naming a category
is instead mapped to that category by the substring fallback.) -/

theorem classify_ambiguous_fyi (t subject body : String)
    (h : (json_loads (cleanedResponse (strTrim t)) = none ∧ noCategoryMarker (strTrim t) = true)
       ∨ (∃ fields, json_loads (cleanedResponse (strTrim t)) = some (JVal.jobj fields)
            ∧ ∀ v, lookupJ "email_type" fields = some v →
                ∃ s, v = JVal.jstr s ∧ strToLower s ≠ "needs_reply"
                  ∧ strToLower s ≠ "schedule" ∧ strToLower s ≠ "spam")) :
    classify_email (ModelOutcome.ok t) subject body = Except.ok "fyi" := by
  show classify_parse (strTrim t) = Except.ok "fyi"
  rcases h with ⟨hnone, hmark⟩ | ⟨fields, hobj, hfield⟩
  · rw [classify_parse_noJson (strTrim t) hnone]
    simp only [noCategoryMarker, Bool.and_eq_true, Bool.not_eq_true'] at hmark
    obtain ⟨⟨m1, m2⟩, m3⟩ := hmark
    simp [m1, m2, m3]
  · rw [classify_parse_obj (strTrim t) fields hobj]
    cases hv : lookupJ "email_type" fields with
    | none => rfl
    | some v =>
      obtain ⟨s, rfl, h1, h2, h3⟩ := hfield v hv
      show (if strToLower s = "needs_reply" ∨ strToLower s = "schedule"
              ∨ strToLower s = "fyi" ∨ strToLower s = "spam"
            then Except.ok (strToLower s) else Except.ok "fyi") = Except.ok "fyi"
      by_cases hf : strToLower s = "fyi"
      · rw [if_pos (Or.inr (Or.inr (Or.inl hf))), hf]
      · rw [if_neg ?_]
        rintro (hc | hc | hc | hc)
        · exact h1 hc
        · exact h2 hc
        · exact hf hc
        · exact h3 hc

/-- Witness for C5 (amended): an unparseable output with no category
name yields `fyi`. -/

theorem classify_ambiguous_fyi_witness :
    (json_loads (cleanedResponse (strTrim "I cannot tell")) = none
      ∧ noCategoryMarker (strTrim "I cannot tell") = true)
    ∧ classify_email (ModelOutcome.ok "I cannot tell") "a" "b" = Except.ok "fyi" := by
  refine ⟨⟨rfl, by decide⟩, ?_⟩
  exact classify_ambiguous_fyi "I cannot tell" "a" "b" (Or.inl ⟨rfl, by decide⟩)

/-- C4 counterexample: the classification call errors with a handled
exception type (e.g. a `ConnectionError`) on a message mentioning a
meeting; the triage stage then yields `schedule`/`create_event` from the
keyword heuristic, not the claimed `fyi`/`none` defaults. -/

theorem triage_model_error_not_default_cex :
    (node_triage (Except.ok false)
        (classify_email ModelOutcome.errCaught "" "can we meet tomorrow")
        (Except.ok ()) (initState sampleReq)).triage = some "schedule"
    ∧ (node_triage (Except.ok false)
        (classify_email ModelOutcome.errCaught "" "can we meet tomorrow")
        (Except.ok ()) (initState sampleReq)).proposed_action = some "create_event"
    ∧ (node_triage (Except.ok false)
        (classify_email ModelOutcome.errCaught "" "can we meet tomorrow")
        (Except.ok ()) (initState sampleReq)).proposed_action ≠ some "none" := by
  refine ⟨rfl, rfl, by decide⟩

/-- C4 as amended: when the classification adapter itself raises — the
error is not one of the exception types it handles with the keyword
heuristic — the triage stage deterministically yields
`category=fyi`, `proposed_action=none`, `is_vip=false`, `priority=1`
(and, being a total function here, the run does not fail). -/

theorem node_triage_adapter_error_defaults (m : ModelOutcome) (subject body : String)
    (vipRes : Except Unit Bool) (logRes : Except Unit Unit) (st : EmailState)
    (herr : classify_email m subject body = Except.error ()) :
    (node_triage vipRes (classify_email m subject body) logRes st).triage = some "fyi"
    ∧ (node_triage vipRes (classify_email m subject body) logRes st).proposed_action
        = some "none"
    ∧ (node_triage vipRes (classify_email m subject body) logRes st).is_vip = some false
    ∧ (node_triage vipRes (classify_email m subject body) logRes st).priority = some 1 := by
  rw [herr]
  cases vipRes <;> simp [node_triage, triageFallback]

/-- Witness for C4 (amended): an unhandled exception type from the model
call propagates out of the adapter and the triage defaults apply. -/

theorem node_triage_adapter_error_defaults_witness :
    classify_email ModelOutcome.errOther "" "can we meet tomorrow" = Except.error ()
    ∧ ((node_triage (Except.ok true)
          (classify_email ModelOutcome.errOther "" "can we meet tomorrow")
          (Except.ok ()) (initState sampleReq)).triage = some "fyi"
        ∧ (node_triage (Except.ok true)
          (classify_email ModelOutcome.errOther "" "can we meet tomorrow")
          (Except.ok ()) (initState sampleReq)).proposed_action = some "none"
        ∧ (node_triage (Except.ok true)
          (classify_email ModelOutcome.errOther "" "can we meet tomorrow")
          (Except.ok ()) (initState sampleReq)).is_vip = some false
        ∧ (node_triage (Except.ok true)
          (classify_email ModelOutcome.errOther "" "can we meet tomorrow")
          (Except.ok ()) (initState sampleReq)).priority = some 1) := by
  exact ⟨rfl, node_triage_adapter_error_defaults ModelOutcome.errOther "" "can we meet tomorrow"
    (Except.ok true) (Except.ok ()) (initState sampleReq) rfl⟩

/-! ## Claims about the Gate stage -/

/-- C3: for a context reaching the Gate: when `proposed_action` is
`send_email` and the draft is non-empty, a proposal is built and
registered under the freshly generated token `email_id ++ "-" ++ nonce`
and the submission returns INTERRUPTED with that token and proposal;
otherwise nothing is registered and the submission returns DONE with the
final context. -/

theorem gate_submit_spec (st : EmailState) (nonce : String)
    (pending : List (String × Entry)) :
    ((st.proposed_action = some "send_email" ∧ truthy st.draft = true) →
       gate_submit nonce pending st =
         (RunRes.interrupted (st.email_id ++ "-" ++ nonce) (mkPayload st),
          insertP (st.email_id ++ "-" ++ nonce)
            { value := mkPayload st, triage := st.triage,
              priority := st.priority, is_vip := st.is_vip } pending)
       ∧ lookupP (st.email_id ++ "-" ++ nonce) (gate_submit nonce pending st).2 =
           some { value := mkPayload st, triage := st.triage,
                  priority := st.priority, is_vip := st.is_vip })
    ∧ (¬ (st.proposed_action = some "send_email" ∧ truthy st.draft = true) →
        gate_submit nonce pending st = (RunRes.done st, pending)) := by
  constructor
  · intro hc
    have hg : gate_submit nonce pending st =
        (RunRes.interrupted (st.email_id ++ "-" ++ nonce) (mkPayload st),
         insertP (st.email_id ++ "-" ++ nonce)
           { value := mkPayload st, triage := st.triage,
             priority := st.priority, is_vip := st.is_vip } pending) := by
      simp [gate_submit, node_sensitive, hc]
    refine ⟨hg, ?_⟩
    rw [hg]
    exact lookupP_insertP_self
  · intro hc
    simp [gate_submit, node_sensitive, hc]

/-- Witness for C3 at a concrete gate input and nonce. -/

theorem gate_submit_spec_witness :
    (sampleGateState.proposed_action = some "send_email"
      ∧ truthy sampleGateState.draft = true)
    ∧ (gate_submit "abc12345" [] sampleGateState =
        (RunRes.interrupted ("m1" ++ "-" ++ "abc12345") (mkPayload sampleGateState),
         insertP ("m1" ++ "-" ++ "abc12345")
           { value := mkPayload sampleGateState, triage := sampleGateState.triage,
             priority := sampleGateState.priority, is_vip := sampleGateState.is_vip } [])
       ∧ lookupP ("m1" ++ "-" ++ "abc12345") (gate_submit "abc12345" [] sampleGateState).2 =
           some { value := mkPayload sampleGateState, triage := sampleGateState.triage,
                  priority := sampleGateState.priority, is_vip := sampleGateState.is_vip }) := by
  have hc : sampleGateState.proposed_action = some "send_email"
      ∧ truthy sampleGateState.draft = true := ⟨rfl, rfl⟩
  exact ⟨hc, (gate_submit_spec sampleGateState "abc12345" []).1 hc⟩

/-- C6 counterexample: a message classified `fyi` still reaches the Gate
with `draft` set (to the fixed placeholder), refuting "`draft` is set iff
`category == NeedsReply`". -/

theorem draft_set_without_needs_reply_cex :
    (preGate (Except.ok false) (ModelOutcome.ok "") (Except.ok ())
        (Except.ok "ignored") sampleReq).triage = some "fyi"
    ∧ (preGate (Except.ok false) (ModelOutcome.ok "") (Except.ok ())
        (Except.ok "ignored") sampleReq).triage ≠ some "needs_reply"
    ∧ (preGate (Except.ok false) (ModelOutcome.ok "") (Except.ok ())
        (Except.ok "ignored") sampleReq).draft = some "No action needed." := by
  refine ⟨rfl, by decide, rfl⟩

/-- C6 as amended: before the Gate stage runs, `category` and
`proposedAction` are always set, and `draft` is always set — equal to the
fixed placeholder `"No action needed."` whenever the category is not
`needs_reply`. -/

theorem pre_gate_invariant (vipRes : Except Unit Bool) (m : ModelOutcome)
    (logRes : Except Unit Unit) (agentRes : Except Unit String)
    (req : RunEmailReq) :
    (preGate vipRes m logRes agentRes req).triage.isSome = true
    ∧ (preGate vipRes m logRes agentRes req).proposed_action.isSome = true
    ∧ (preGate vipRes m logRes agentRes req).draft.isSome = true
    ∧ ((preGate vipRes m logRes agentRes req).triage ≠ some "needs_reply" →
        (preGate vipRes m logRes agentRes req).draft = some "No action needed.") := by
  cases hcl : classify_email m req.email_subject req.email_body with
  | error e =>
    cases vipRes <;> cases logRes <;> cases agentRes <;>
      simp [preGate, node_triage, node_agent, triageFallback, hcl]
  | ok label =>
    by_cases hl : label = "needs_reply"
    · subst hl
      cases vipRes <;> cases logRes <;> cases agentRes <;>
        simp [preGate, node_triage, node_agent, triageFallback, hcl]
    · cases vipRes <;> cases logRes <;> cases agentRes <;>
        simp [preGate, node_triage, node_agent, triageFallback, hcl, hl]

/-- Witness for C6 (amended): a concrete `fyi` run has all three fields
set, and the not-needs-reply hypothesis is discharged to obtain the
placeholder draft. -/

theorem pre_gate_invariant_witness :
    (preGate (Except.ok false) (ModelOutcome.ok "") (Except.ok ())
        (Except.ok "ignored") sampleReq).triage ≠ some "needs_reply"
    ∧ (preGate (Except.ok false) (ModelOutcome.ok "") (Except.ok ())
        (Except.ok "ignored") sampleReq).triage.isSome = true
    ∧ (preGate (Except.ok false) (ModelOutcome.ok "") (Except.ok ())
        (Except.ok "ignored") sampleReq).proposed_action.isSome = true
    ∧ (preGate (Except.ok false) (ModelOutcome.ok "") (Except.ok ())
        (Except.ok "ignored") sampleReq).draft = some "No action needed." := by
  have hne : (preGate (Except.ok false) (ModelOutcome.ok "") (Except.ok ())
      (Except.ok "ignored") sampleReq).triage ≠ some "needs_reply" := by decide
  have h := pre_gate_invariant (Except.ok false) (ModelOutcome.ok "") (Except.ok ())
    (Except.ok "ignored") sampleReq
  exact ⟨hne, h.1, h.2.1, h.2.2.2 hne⟩

/-! ## Claims about extract_sender_email -/

theorem countWhile_le_length (p : Char → Bool) :
    ∀ cs : List Char, countWhile p cs ≤ cs.length := by
  intro cs
  induction cs with
  | nil => simp [countWhile]
  | cons c t ih =>
    simp only [countWhile, List.length_cons]
    by_cases h : p c
    · rw [if_pos h]; omega
    · rw [if_neg h]; omega

theorem all_take_countWhile (p : Char → Bool) :
    ∀ cs : List Char, (cs.take (countWhile p cs)).all p = true := by
  intro cs
  induction cs with
  | nil => simp [countWhile]
  | cons c t ih =>
    simp only [countWhile]
    by_cases h : p c
    · rw [if_pos h]
      simp only [List.take_succ_cons, List.all_cons, h, Bool.true_and]
      exact ih
    · rw [if_neg h]
      simp

theorem countWhile_append_all {p : Char → Bool} {xs : List Char} {y : Char}
    (t : List Char) (hx : xs.all p = true) (hy : p y = false) :
    countWhile p (xs ++ y :: t) = xs.length := by
  induction xs with
  | nil => simp [countWhile, hy]
  | cons x xs ih =>
    simp only [List.all_cons, Bool.and_eq_true] at hx
    simp only [List.cons_append, countWhile, hx.1, if_true, List.length_cons,
      List.append_eq]
    rw [ih hx.2]

theorem length_le_countWhile_of_all {p : Char → Bool} {xs : List Char}
    (rest : List Char) (hx : xs.all p = true) :
    xs.length ≤ countWhile p (xs ++ rest) := by
  induction xs with
  | nil => simp
  | cons x xs ih =>
    simp only [List.all_cons, Bool.and_eq_true] at hx
    simp only [List.cons_append, countWhile, hx.1, if_true, List.length_cons,
      List.append_eq]
    have := ih hx.2
    omega

theorem get?_append_length {α : Type} (xs : List α) (y : α) (t : List α) :
    (xs ++ y :: t).get? xs.length = some y := by
  induction xs with
  | nil => rfl
  | cons x xs ih => simpa using ih

theorem drop_append_cons {α : Type} (xs : List α) (y : α) (t : List α) :
    (xs ++ y :: t).drop (xs.length + 1) = t := by
  induction xs with
  | nil => rfl
  | cons x xs ih => exact ih

theorem get?_some_lt {α : Type} :
    ∀ (cs : List α) (n : Nat) (y : α), cs.get? n = some y → n < cs.length := by
  intro cs
  induction cs with
  | nil => intro n y h; cases n <;> simp [List.get?] at h
  | cons c t ih =>
    intro n y h
    cases n with
    | zero => simp
    | succ n =>
      simp only [List.get?] at h
      have := ih n y h
      simp only [List.length_cons]
      omega

theorem drop_eq_cons_of_get? {α : Type} :
    ∀ (cs : List α) (n : Nat) (y : α), cs.get? n = some y →
      cs.drop n = y :: cs.drop (n + 1) := by
  intro cs
  induction cs with
  | nil => intro n y h; cases n <;> simp [List.get?] at h
  | cons c t ih =>
    intro n y h
    cases n with
    | zero =>
      simp only [List.get?] at h
      injection h with h
      subst h
      rfl
    | succ n =>
      simp only [List.get?] at h
      simpa using ih n y h

theorem all_take {p : Char → Bool} (k : Nat) :
    ∀ {l : List Char}, l.all p = true → (l.take k).all p = true := by
  induction k with
  | zero => intro l _; simp
  | succ k ih =>
    intro l hl
    cases l with
    | nil => simp
    | cons c t =>
      simp only [List.all_cons, Bool.and_eq_true] at hl
      simp only [List.take_succ_cons, List.all_cons, hl.1, Bool.true_and]
      exact ih hl.2

theorem tryDot_sound (cs : List Char) :
    ∀ (j n : Nat), tryDot cs j = some n →
      ∃ d, 1 ≤ d ∧ d ≤ j ∧ cs.get? d = some '.'
        ∧ 2 ≤ countWhile Char.isAlpha (cs.drop (d + 1))
        ∧ n = d + 1 + countWhile Char.isAlpha (cs.drop (d + 1)) := by
  intro j
  induction j with
  | zero => intro n h; simp [tryDot] at h
  | succ j ih =>
    intro n h
    by_cases hc : cs.get? (j + 1) = some '.'
        ∧ 2 ≤ countWhile Char.isAlpha (cs.drop (j + 2))
    · rw [tryDot, if_pos hc] at h
      injection h with h
      refine ⟨j + 1, by omega, le_refl _, hc.1, ?_, ?_⟩
      · show 2 ≤ countWhile Char.isAlpha (cs.drop (j + 2))
        exact hc.2
      · show n = j + 1 + 1 + countWhile Char.isAlpha (cs.drop (j + 2))
        omega
    · rw [tryDot, if_neg hc] at h
      obtain ⟨d, h1, h2, h3, h4, h5⟩ := ih n h
      exact ⟨d, h1, by omega, h3, h4, h5⟩

theorem tryDot_complete (cs : List Char) :
    ∀ (j d : Nat), 1 ≤ d → d ≤ j → cs.get? d = some '.' →
      2 ≤ countWhile Char.isAlpha (cs.drop (d + 1)) →
      (tryDot cs j).isSome = true := by
  intro j
  induction j with
  | zero => intro d h1 h2 _ _; omega
  | succ j ih =>
    intro d h1 h2 h3 h4
    by_cases hc : cs.get? (j + 1) = some '.'
        ∧ 2 ≤ countWhile Char.isAlpha (cs.drop (j + 2))
    · rw [tryDot, if_pos hc]; rfl
    · rw [tryDot, if_neg hc]
      rcases Nat.lt_or_ge d (j + 1) with hd | hd
      · exact ih d h1 (by omega) h3 h4
      · exfalso
        have hde : d = j + 1 := by omega
        subst hde
        exact hc ⟨h3, h4⟩

theorem matchAt_sound (cs : List Char) (n : Nat) (h : matchAt cs = some n) :
    ∃ m, patExpL m ∧ m <+: cs ∧ m.length = n := by
  unfold matchAt at h
  by_cases hc : 1 ≤ countWhile classAB cs
      ∧ cs.get? (countWhile classAB cs) = some '@'
  · rw [if_pos hc] at h
    set r := countWhile classAB cs with hr
    set cs' := cs.drop (r + 1) with hcs'
    cases ht : tryDot cs' (countWhile classAB cs') with
    | none => rw [ht] at h; cases h
    | some dtot =>
      rw [ht] at h
      injection h with h
      obtain ⟨d, hd1, hdlecw, hdot, hcw2, hdeq⟩ := tryDot_sound cs' _ dtot ht
      set cw := countWhile Char.isAlpha (cs'.drop (d + 1)) with hcw
      refine ⟨cs.take r ++ '@' :: (cs'.take d ++ '.' ::
        ((cs'.drop (d + 1)).take cw)), ?_, ?_, ?_⟩
      · refine ⟨cs.take r, cs'.take d, (cs'.drop (d + 1)).take cw, rfl, ?_, ?_, ?_, ?_, ?_, ?_⟩
        · have hrlt : r < cs.length := get?_some_lt cs r '@' hc.2
          rw [List.length_take]
          omega
        · exact hr ▸ all_take_countWhile classAB cs
        · have hdlt : d < cs'.length := get?_some_lt cs' d '.' hdot
          rw [List.length_take]
          omega
        · have : cs'.take d = (cs'.take (countWhile classAB cs')).take d := by
            rw [List.take_take]
            congr 1
            omega
          rw [this]
          exact all_take d (all_take_countWhile classAB cs')
        · have hcwlen : cw ≤ (cs'.drop (d + 1)).length := hcw ▸ countWhile_le_length _ _
          rw [List.length_take]
          omega
        · exact hcw ▸ all_take_countWhile Char.isAlpha (cs'.drop (d + 1))
      · have e2 : cs'.take d ++ '.' :: (cs'.drop (d + 1)) = cs' := by
          conv_rhs => rw [← List.take_append_drop d cs']
          rw [drop_eq_cons_of_get? cs' d '.' hdot]
        have e1 : cs.take r ++ '@' :: cs' = cs := by
          conv_rhs => rw [← List.take_append_drop r cs]
          rw [drop_eq_cons_of_get? cs r '@' hc.2, ← hcs']
        have hp1 : ((cs'.drop (d + 1)).take cw) <+: cs'.drop (d + 1) :=
          List.take_prefix _ _
        have hp2 : (cs'.take d ++ '.' :: ((cs'.drop (d + 1)).take cw))
            <+: (cs'.take d ++ '.' :: (cs'.drop (d + 1))) := by
          obtain ⟨u, hu⟩ := hp1
          exact ⟨u, by rw [List.append_assoc, List.cons_append, hu]⟩
        rw [e2] at hp2
        have hp3 : (cs.take r ++ '@' :: (cs'.take d ++ '.' :: ((cs'.drop (d + 1)).take cw)))
            <+: (cs.take r ++ '@' :: cs') := by
          obtain ⟨u, hu⟩ := hp2
          exact ⟨u, by rw [List.append_assoc, List.cons_append, hu]⟩
        rw [e1] at hp3
        exact hp3
      · have hrlt : r < cs.length := get?_some_lt cs r '@' hc.2
        have hdlt : d < cs'.length := get?_some_lt cs' d '.' hdot
        have hcwlen : cw ≤ (cs'.drop (d + 1)).length := hcw ▸ countWhile_le_length _ _
        simp only [List.length_append, List.length_cons, List.length_take]
        omega
  · rw [if_neg hc] at h
    cases h

theorem matchAt_complete (cs : List Char)
    (h : ∃ m, patExpL m ∧ m <+: cs) : (matchAt cs).isSome = true := by
  obtain ⟨m, ⟨a, b, l, hm, ha1, haall, hb1, hball, hl2, hlall⟩, t, ht⟩ := h
  subst hm
  have hsh : (a ++ '@' :: (b ++ '.' :: l)) ++ t = a ++ '@' :: (b ++ '.' :: (l ++ t)) := by
    simp
  rw [hsh] at ht
  subst ht
  have hr : countWhile classAB (a ++ '@' :: (b ++ '.' :: (l ++ t))) = a.length :=
    countWhile_append_all _ haall (by decide)
  have hget : (a ++ '@' :: (b ++ '.' :: (l ++ t))).get?
      (countWhile classAB (a ++ '@' :: (b ++ '.' :: (l ++ t)))) = some '@' := by
    rw [hr]; exact get?_append_length a '@' _
  have hdrop : (a ++ '@' :: (b ++ '.' :: (l ++ t))).drop
      (countWhile classAB (a ++ '@' :: (b ++ '.' :: (l ++ t))) + 1)
      = b ++ '.' :: (l ++ t) := by
    rw [hr]; exact drop_append_cons a '@' _
  unfold matchAt
  rw [if_pos ⟨by rw [hr]; exact ha1, hget⟩, hdrop]
  have hd : (b ++ '.' :: (l ++ t)).get? b.length = some '.' :=
    get?_append_length b '.' _
  have hddrop : (b ++ '.' :: (l ++ t)).drop (b.length + 1) = l ++ t :=
    drop_append_cons b '.' _
  have hcw2 : 2 ≤ countWhile Char.isAlpha ((b ++ '.' :: (l ++ t)).drop (b.length + 1)) := by
    rw [hddrop]
    have := length_le_countWhile_of_all t hlall
    omega
  have hble : b.length ≤ countWhile classAB (b ++ '.' :: (l ++ t)) :=
    length_le_countWhile_of_all _ hball
  have hsome := tryDot_complete (b ++ '.' :: (l ++ t)) _ b.length hb1 hble hd hcw2
  cases htd : tryDot (b ++ '.' :: (l ++ t))
      (countWhile classAB (b ++ '.' :: (l ++ t))) with
  | none => rw [htd] at hsome; cases hsome
  | some dtot => rfl

theorem searchFrom_sound :
    ∀ (cs : List Char) (i j n : Nat), searchFrom cs i = some (j, n) →
      i ≤ j ∧ matchAt (cs.drop (j - i)) = some n
        ∧ ∀ k, k < j - i → matchAt (cs.drop k) = none := by
  intro cs
  induction cs with
  | nil => intro i j n h; simp [searchFrom] at h
  | cons c t ih =>
    intro i j n h
    cases hma : matchAt (c :: t) with
    | some n' =>
      rw [searchFrom, hma] at h
      injection h with h1
      injection h1 with hj hn
      subst hj; subst hn
      refine ⟨le_refl _, ?_, ?_⟩
      · simpa using hma
      · intro k hk; omega
    | none =>
      rw [searchFrom, hma] at h
      obtain ⟨hij, hmat, hnone⟩ := ih (i + 1) j n h
      refine ⟨by omega, ?_, ?_⟩
      · have : j - i = (j - (i + 1)) + 1 := by omega
        rw [this]
        simpa using hmat
      · intro k hk
        cases k with
        | zero => simpa using hma
        | succ k =>
          have : (c :: t).drop (k + 1) = t.drop k := by simp
          rw [this]
          exact hnone k (by omega)

theorem searchFrom_complete :
    ∀ (cs : List Char) (i : Nat),
      (∃ d, (matchAt (cs.drop d)).isSome = true) →
      (searchFrom cs i).isSome = true := by
  intro cs
  induction cs with
  | nil =>
    intro i h
    obtain ⟨d, hd⟩ := h
    simp only [List.drop_nil] at hd
    simp [matchAt, countWhile] at hd
  | cons c t ih =>
    intro i h
    cases hma : matchAt (c :: t) with
    | some n => rw [searchFrom, hma]; rfl
    | none =>
      rw [searchFrom, hma]
      obtain ⟨d, hd⟩ := h
      cases d with
      | zero => simp only [List.drop_zero] at hd; rw [hma] at hd; cases hd
      | succ d =>
        refine ih (i + 1) ⟨d, ?_⟩
        simpa using hd

/-- C10: `extract_sender_email` is total; on an absent input it returns
`""`; when no substring of the input matches the address pattern it
returns the input unchanged; and when some position matches, it returns
a pattern-matching substring taken at the first matching position. -/

theorem extract_sender_email_spec (s : Option String) :
    (s = none → extract_sender_email s = "")
    ∧ ((∀ i, ¬ matchesAt (s.getD "").toList i) →
        extract_sender_email s = s.getD "")
    ∧ (∀ i₀, matchesAt (s.getD "").toList i₀ →
        ∃ i m, patExpL m ∧ m <+: (s.getD "").toList.drop i
          ∧ (∀ k, k < i → ¬ matchesAt (s.getD "").toList k)
          ∧ extract_sender_email s = String.mk m) := by
  refine ⟨?_, ?_, ?_⟩
  · intro hnone; subst hnone; rfl
  · intro hno
    cases he : emailSearch (s.getD "") with
    | none => simp [extract_sender_email, he]
    | some im =>
      exfalso
      obtain ⟨i, n⟩ := im
      unfold emailSearch at he
      cases hsf : searchFrom (s.getD "").toList 0 with
      | none => rw [hsf] at he; cases he
      | some jn =>
        obtain ⟨j, n'⟩ := jn
        obtain ⟨_, hmat, _⟩ := searchFrom_sound _ 0 j n' hsf
        obtain ⟨m, hpat, hpre, _⟩ := matchAt_sound _ n' (by simpa using hmat)
        exact hno j ⟨m, hpat, hpre⟩
  · intro i₀ hm
    cases hsf : searchFrom (s.getD "").toList 0 with
    | none =>
      exfalso
      obtain ⟨mm, hpat, hpre⟩ := hm
      have hc := searchFrom_complete (s.getD "").toList 0
        ⟨i₀, matchAt_complete _ ⟨mm, hpat, hpre⟩⟩
      rw [hsf] at hc
      cases hc
    | some jn =>
      obtain ⟨j, n⟩ := jn
      obtain ⟨_, hmat, hnone⟩ := searchFrom_sound _ 0 j n hsf
      simp only [Nat.sub_zero] at hmat hnone
      obtain ⟨m, hpat, hpre, hlen⟩ := matchAt_sound _ n hmat
      have hmeq : m = ((s.getD "").toList.drop j).take n := by
        rw [List.prefix_iff_eq_take] at hpre
        rw [hpre, hlen]
      refine ⟨j, m, hpat, hpre, ?_, ?_⟩
      · intro k hk hka
        obtain ⟨mk, hmk, hmkpre⟩ := hka
        have := matchAt_complete _ ⟨mk, hmk, hmkpre⟩
        rw [hnone k hk] at this
        cases this
      · have hsf2 : searchFrom (s.getD "").data 0 = some (j, n) := hsf
        have hx : extract_sender_email s =
            String.mk (((s.getD "").toList.drop j).take n) := by
          simp [extract_sender_email, emailSearch, hsf2, String.toList]
        rw [hx, ← hmeq]

/-- Witness for C10: a bracketed From header; the address pattern first
matches at position 7 and `extract_sender_email` returns that match. -/

theorem extract_sender_email_spec_witness :
    matchesAt ("Alice <alice@example.com>" : String).toList 7
    ∧ (∃ i m, patExpL m
        ∧ m <+: ("Alice <alice@example.com>" : String).toList.drop i
        ∧ (∀ k, k < i → ¬ matchesAt ("Alice <alice@example.com>" : String).toList k)
        ∧ extract_sender_email (some "Alice <alice@example.com>") = String.mk m) := by
  have hm : matchesAt ("Alice <alice@example.com>" : String).toList 7 := by
    refine ⟨"alice@example.com".toList,
      ⟨"alice".toList, "example".toList, "com".toList,
        by decide, by decide, by decide, by decide, by decide, by decide, by decide⟩,
      ⟨">".toList, by decide⟩⟩
  exact ⟨hm, (extract_sender_email_spec (some "Alice <alice@example.com>")).2.2 7 hm⟩

end AmbientAgent
